import Mathlib

/-!
Verification of the pyrel relation-lifecycle and algebra layer
(`pyrel/pyrel.py`).

The embedding models the Kure diagram-engine primitives (external C
library, specified only by its capability interface) and, on top of
them, the Python classes `PyrelContext` and `Relation` from the source.
Engine objects are mathematical relations: a pair of dimensions and a
finite set of (row, col) coordinates.  Python's in-place mutation of an
engine handle is modelled by explicit state passing: a method that
mutates `self.rel` takes the engine object and returns the updated one;
a method that touches the owning context threads the context state.
Each Python-layer operation additionally returns the list of engine
calls it performed, so that "raised before any engine call" properties
can be stated directly.
-/

/-- Modelled from the spec: set of all in-range coordinates of a
relation of the given dimensions (rows × cols grid, zero-based). -/
def allPairs (rows cols : Int) : Finset (Int × Int) :=
  Finset.Ico 0 rows ×ˢ Finset.Ico 0 cols

/-- Modelled from the spec: an engine relation object (`KureRel`): fixed
dimensions plus the finite set of set bits.  The decision-diagram
representation is irrelevant to the algebra; only the bit set is
observable through the interface of §6 of the spec. -/
structure KureRel where
  rows : Int
  cols : Int
  bits : Finset (Int × Int)
deriving DecidableEq

/-- Modelled from the spec: create-with-dimensions returns a fresh
relation handle of the requested dimensions with no set bits. -/
def kure_rel_new_with_size_si (rows cols : Int) : KureRel :=
  ⟨rows, cols, ∅⟩

/-- Modelled from the spec: set-bit(handle, value, row, col) → success.
Succeeds exactly on in-range coordinates (the spec's §8 scenario has an
out-of-range coordinate fail with an engine-reported error); on success
the single bit is set or cleared, nothing else changes. -/
def kure_set_bit_si (R : KureRel) (yesno : Bool) (row col : Int) : Option KureRel :=
  if 0 ≤ row ∧ row < R.rows ∧ 0 ≤ col ∧ col < R.cols then
    some ⟨R.rows, R.cols, if yesno then insert (row, col) R.bits else R.bits.erase (row, col)⟩
  else
    none

/-- Modelled from the spec: kure_O empties the relation in place. -/
def kure_O (R : KureRel) : KureRel :=
  ⟨R.rows, R.cols, ∅⟩

/-- Modelled from the spec: randomized fill.  The engine's randomness is
abstracted by an oracle `fill`; the result holds the oracle's bits
restricted to the relation's dimensions.  The probability only biases
the engine's choice and does not otherwise constrain the outcome. -/
def kure_random_simple (R : KureRel) (_prob : ℚ) (fill : Finset (Int × Int)) : KureRel :=
  ⟨R.rows, R.cols, fill ∩ allPairs R.rows R.cols⟩

/-- Modelled from the spec: bitwise intersection written into the output
handle; the engine reports failure unless the operands agree in both
dimensions (§4.2 dimension rule for meet). -/
def kure_and (arg1 arg2 : KureRel) : Option KureRel :=
  if arg1.rows = arg2.rows ∧ arg1.cols = arg2.cols then
    some ⟨arg1.rows, arg1.cols, arg1.bits ∩ arg2.bits⟩
  else
    none

/-- Modelled from the spec: bitwise union written into the output
handle; same dimension rule as kure_and. -/
def kure_or (arg1 arg2 : KureRel) : Option KureRel :=
  if arg1.rows = arg2.rows ∧ arg1.cols = arg2.cols then
    some ⟨arg1.rows, arg1.cols, arg1.bits ∪ arg2.bits⟩
  else
    none

/-- Modelled from the spec: transpose swaps row and column roles; the
output handle receives the swapped dimensions and the mirrored bit set.
The spec states no failure condition for transpose. -/
def kure_transpose (arg : KureRel) : KureRel :=
  ⟨arg.cols, arg.rows, arg.bits.image Prod.swap⟩

/-- Modelled from the spec: bitwise negation within the relation's own
dimensions; no failure condition. -/
def kure_complement (arg : KureRel) : KureRel :=
  ⟨arg.rows, arg.cols, allPairs arg.rows arg.cols \ arg.bits⟩

/-- Modelled from the spec: relational multiplication; bit (i,k) of the
output is set iff some intermediate j links (i,j) in arg1 with (j,k) in
arg2 (j ranges over arg1's column indices, which covers every set bit of
a well-formed operand).  Fails unless arg1's columns equal arg2's rows;
on success the output handle receives dimensions (arg1 rows, arg2 cols). -/
def kure_mult (arg1 arg2 : KureRel) : Option KureRel :=
  if arg1.cols = arg2.rows then
    some ⟨arg1.rows, arg2.cols,
      (allPairs arg1.rows arg2.cols).filter
        (fun p => ∃ j ∈ Finset.Ico (0 : Int) arg1.cols, (p.1, j) ∈ arg1.bits ∧ (j, p.2) ∈ arg2.bits)⟩
  else
    none

/-- Modelled from the spec: structural equality of bit sets; the success
signal is false (engine failure) when the operands differ in dimension
rather than answering false. -/
def kure_equals (R S : KureRel) : Option Bool :=
  if R.rows = S.rows ∧ R.cols = S.cols then
    some (decide (R.bits = S.bits))
  else
    none

/-- Modelled from the spec: kure_includes(R, S) decides R ⊆ S over bit
sets, with the same dimension-mismatch failure as kure_equals. -/
def kure_includes (R S : KureRel) : Option Bool :=
  if R.rows = S.rows ∧ R.cols = S.cols then
    some (decide (R.bits ⊆ S.bits))
  else
    none

/-- The distinct raise sites of pyrel's single exception class
PyrelException, distinguished (as the spec's taxonomy does) by the
message they carry.  The source has no raise site for a context
mismatch, hence no such case exists. -/
inductive PErr where
  /-- raise site pyrel.py:96, message "Invalid dimension." -/
  | invalidDimension
  /-- raise site pyrel.py:196, message "argument type must be relation" -/
  | typeMismatch
  /-- raise site pyrel.py:254, message "Invalid (row, col) bit pair." -/
  | invalidBitPair
  /-- raise site pyrel.py:299, message "Invalid argument. Prob must be a float between 0.0 and 1.0." -/
  | invalidArgument
  /-- raise site pyrel.py:207 (_kure_error), message and code read from the manager's last-error slot -/
  | engineError
deriving DecidableEq

/-- One engine call, as recorded in the trace a Python-layer operation
returns alongside its result. -/
inductive EngineCall where
  | relNewWithSize (rows cols : Int)
  | setBit (yesno : Bool) (row col : Int)
  | emptyOp
  | randomSimple
  | andOp
  | orOp
  | transposeOp
  | complementOp
  | multOp
  | equalsOp
  | includesOp
  | relDestroy
deriving DecidableEq

/-- State of a PyrelContext: the incrementing reference counter `ref`
and the insertion-ordered mapping from reference number to the tracked
engine relation object (`self.relations`). -/
structure PyrelContext where
  ref : Nat
  relations : List (Nat × KureRel)
deriving DecidableEq

/-- The Python Relation wrapper: owning context (identified by a
context id, a back-reference rather than ownership), reference number,
and the `rows`/`cols` attributes read from the engine handle once, at
construction time (pyrel.py:165-166).  The engine object itself is
passed alongside the wrapper wherever the source dereferences
`self.rel`. -/
structure Relation where
  ctxId : Nat
  ref : Nat
  rows : Int
  cols : Int
deriving DecidableEq

/-- An argument passed to a Relation method: either a Relation (wrapper
together with its engine object) or any non-Relation Python object. -/
inductive PyArg where
  | rel (r : Relation) (obj : KureRel)
  | nonRelation
deriving DecidableEq

/-- Overwrite the engine object stored under a reference number
(modelling that the result handle registered in the context and the
handle the engine writes into are the same object). -/
def PyrelContext.setObj (ctx : PyrelContext) (ref : Nat) (obj : KureRel) : PyrelContext :=
  ⟨ctx.ref, ctx.relations.map (fun p => if p.1 = ref then (ref, obj) else p)⟩

/-- Relation.set_bit (pyrel.py:219-233): one engine set-bit call; on a
failure signal the error translator raises from the last-error slot. -/
def Relation.set_bit (obj : KureRel) (row col : Int) (yesno : Bool) :
    Except PErr KureRel × List EngineCall :=
  match kure_set_bit_si obj yesno row col with
  | some obj1 => (.ok obj1, [.setBit yesno row col])
  | none => (.error .engineError, [.setBit yesno row col])

/-- Relation.set_bits (pyrel.py:235-254): iterates over the list,
unpacking each element into a (row, col) pair and applying set_bit; an
element that does not unpack into exactly two components aborts the loop
with the "Invalid (row, col) bit pair." exception (list elements are
modelled as integer tuples of arbitrary arity, so malformedness is
having an arity other than two).  Returns the (possibly partially
updated) engine object, the error if one was raised, and the engine
calls made. -/
def Relation.set_bits (obj : KureRel) (bits : List (List Int)) (yesno : Bool) :
    KureRel × Option PErr × List EngineCall :=
  match bits with
  | [] => (obj, none, [])
  | pair :: rest =>
    match pair with
    | [row, col] =>
      match Relation.set_bit obj row col yesno with
      | (.ok obj1, tr1) =>
        match Relation.set_bits obj1 rest yesno with
        | (obj2, err, tr2) => (obj2, err, tr1 ++ tr2)
      | (.error e, tr1) => (obj, some e, tr1)
    | _ => (obj, some PErr.invalidBitPair, [])

/-- PyrelContext.new (pyrel.py:80-103): validates the dimension
invariant before any engine call, then creates the engine handle,
increments the counter, registers the handle under the new reference
number, wraps it (the wrapper reading its dimension attributes from the
fresh handle), and, if bit coordinates were supplied (a non-empty list;
both None and an empty list skip the call, matching Python truthiness),
applies them via set_bits — whose partial effect on the registered
handle and whose exception both survive. -/
def PyrelContext.new (ctx : PyrelContext) (cid : Nat) (rows cols : Int)
    (bits : List (List Int)) :
    PyrelContext × Except PErr Relation × List EngineCall :=
  if (rows = 0 ∧ cols = 0) ∨ (0 < rows ∧ 0 < cols) then
    let rel := kure_rel_new_with_size_si rows cols
    let newRef := ctx.ref + 1
    let relation : Relation := ⟨cid, newRef, rel.rows, rel.cols⟩
    if bits.isEmpty then
      (⟨newRef, ctx.relations ++ [(newRef, rel)]⟩, .ok relation,
        [.relNewWithSize rows cols])
    else
      match Relation.set_bits rel bits true with
      | (obj1, none, tr) =>
        (⟨newRef, ctx.relations ++ [(newRef, obj1)]⟩, .ok relation,
          .relNewWithSize rows cols :: tr)
      | (obj1, some e, tr) =>
        (⟨newRef, ctx.relations ++ [(newRef, obj1)]⟩, .error e,
          .relNewWithSize rows cols :: tr)
  else
    (ctx, .error .invalidDimension, [])

/-- PyrelContext._add (pyrel.py:105-115): increments the counter,
registers the given engine object under the new reference number and
returns that number. -/
def PyrelContext.add (ctx : PyrelContext) (obj : KureRel) : PyrelContext × Nat :=
  (⟨ctx.ref + 1, ctx.relations ++ [(ctx.ref + 1, obj)]⟩, ctx.ref + 1)

/-- PyrelContext.delete (pyrel.py:117-128), already reduced to a
reference number (a Relation argument is first replaced by its ref):
if the number is tracked, the underlying handle is destroyed and the
mapping entry removed; otherwise a no-op. -/
def PyrelContext.delete (ctx : PyrelContext) (ref : Nat) : PyrelContext :=
  match ctx.relations.lookup ref with
  | some _ => ⟨ctx.ref, ctx.relations.filter (fun p => p.1 != ref)⟩
  | none => ctx

/-- PyrelContext.clean (pyrel.py:130-134): destroys every tracked
relation and empties the mapping; the counter is untouched. -/
def PyrelContext.clean (ctx : PyrelContext) : PyrelContext :=
  ⟨ctx.ref, []⟩

/-- Relation.clear (pyrel.py:272-280): empties the relation's own
handle in place via kure_O. -/
def Relation.clear (obj : KureRel) : KureRel × Option PErr × List EngineCall :=
  (kure_O obj, none, [.emptyOp])

/-- Relation.random (pyrel.py:282-300): first clears the relation (an
engine call), then checks that the probability is a float greater than
0.0; on success clamps it to at most 1.0 and requests the randomized
fill, otherwise raises the "Invalid argument" exception.  `isFloat`
models Python's isinstance(prob, float) test; the fill oracle stands for
the engine's random choice. -/
def Relation.random (obj : KureRel) (fill : Finset (Int × Int))
    (isFloat : Bool) (prob : ℚ) :
    KureRel × Option PErr × List EngineCall :=
  let obj1 := kure_O obj
  if isFloat = true ∧ 0 < prob then
    (kure_random_simple obj1 (min 1 prob) fill, none, [.emptyOp, .randomSimple])
  else
    (obj1, some PErr.invalidArgument, [.emptyOp])

/-- Relation.meet (pyrel.py:350-368): type-checks the operand (raising
"argument type must be relation" for a non-Relation; nothing else is
checked — in particular not context membership), mints the result via
the owning context with the operand's own dimensions, then has the
engine write the intersection into the result handle. -/
def Relation.meet (ctx : PyrelContext) (selfR : Relation) (selfObj : KureRel)
    (other : PyArg) :
    PyrelContext × Except PErr (Relation × KureRel) × List EngineCall :=
  match other with
  | .nonRelation => (ctx, .error .typeMismatch, [])
  | .rel _ otherObj =>
    match PyrelContext.new ctx selfR.ctxId selfR.rows selfR.cols [] with
    | (ctx1, .error e, tr) => (ctx1, .error e, tr)
    | (ctx1, .ok resultRel, tr) =>
      match kure_and selfObj otherObj with
      | some ropObj =>
        (ctx1.setObj resultRel.ref ropObj, .ok (resultRel, ropObj), tr ++ [.andOp])
      | none => (ctx1, .error .engineError, tr ++ [.andOp])

/-- Relation.join (pyrel.py:370-388): same shape as meet, with the
engine union primitive. -/
def Relation.join (ctx : PyrelContext) (selfR : Relation) (selfObj : KureRel)
    (other : PyArg) :
    PyrelContext × Except PErr (Relation × KureRel) × List EngineCall :=
  match other with
  | .nonRelation => (ctx, .error .typeMismatch, [])
  | .rel _ otherObj =>
    match PyrelContext.new ctx selfR.ctxId selfR.rows selfR.cols [] with
    | (ctx1, .error e, tr) => (ctx1, .error e, tr)
    | (ctx1, .ok resultRel, tr) =>
      match kure_or selfObj otherObj with
      | some ropObj =>
        (ctx1.setObj resultRel.ref ropObj, .ok (resultRel, ropObj), tr ++ [.orOp])
      | none => (ctx1, .error .engineError, tr ++ [.orOp])

/-- Relation.transpose (pyrel.py:390-404): mints the result with the
operand's own (rows, cols) — not (cols, rows) — and has the engine write
the transpose into the result handle.  The wrapper's dimension
attributes were read from the fresh handle before the transpose ran and
are not updated afterwards. -/
def Relation.transpose (ctx : PyrelContext) (selfR : Relation) (selfObj : KureRel) :
    PyrelContext × Except PErr (Relation × KureRel) × List EngineCall :=
  match PyrelContext.new ctx selfR.ctxId selfR.rows selfR.cols [] with
  | (ctx1, .error e, tr) => (ctx1, .error e, tr)
  | (ctx1, .ok resultRel, tr) =>
    let ropObj := kure_transpose selfObj
    (ctx1.setObj resultRel.ref ropObj, .ok (resultRel, ropObj), tr ++ [.transposeOp])

/-- Relation.complement (pyrel.py:406-420): mints the result with the
operand's dimensions and has the engine write the negation into it. -/
def Relation.complement (ctx : PyrelContext) (selfR : Relation) (selfObj : KureRel) :
    PyrelContext × Except PErr (Relation × KureRel) × List EngineCall :=
  match PyrelContext.new ctx selfR.ctxId selfR.rows selfR.cols [] with
  | (ctx1, .error e, tr) => (ctx1, .error e, tr)
  | (ctx1, .ok resultRel, tr) =>
    let ropObj := kure_complement selfObj
    (ctx1.setObj resultRel.ref ropObj, .ok (resultRel, ropObj), tr ++ [.complementOp])

/-- Relation.composition (pyrel.py:422-441): type-checks the operand,
mints the result with the operand's own (rows, cols) — not
(self rows, other cols) — then has the engine write the relational
product into the result handle. -/
def Relation.composition (ctx : PyrelContext) (selfR : Relation) (selfObj : KureRel)
    (other : PyArg) :
    PyrelContext × Except PErr (Relation × KureRel) × List EngineCall :=
  match other with
  | .nonRelation => (ctx, .error .typeMismatch, [])
  | .rel _ otherObj =>
    match PyrelContext.new ctx selfR.ctxId selfR.rows selfR.cols [] with
    | (ctx1, .error e, tr) => (ctx1, .error e, tr)
    | (ctx1, .ok resultRel, tr) =>
      match kure_mult selfObj otherObj with
      | some ropObj =>
        (ctx1.setObj resultRel.ref ropObj, .ok (resultRel, ropObj), tr ++ [.multOp])
      | none => (ctx1, .error .engineError, tr ++ [.multOp])

/-- Relation.equals (pyrel.py:443-462): type-checks the operand, then
reads the engine's structural-equality answer together with its success
signal; a failed signal (dimension mismatch) raises rather than
defaulting to a boolean. -/
def Relation.equals (selfObj : KureRel) (other : PyArg) :
    Except PErr Bool × List EngineCall :=
  match other with
  | .nonRelation => (.error .typeMismatch, [])
  | .rel _ otherObj =>
    match kure_equals selfObj otherObj with
    | some b => (.ok b, [.equalsOp])
    | none => (.error .engineError, [.equalsOp])

/-- Relation.isSuperset (pyrel.py:478-497): type-checks, then calls the
engine inclusion primitive with the operand first
(includes(other, self), i.e. other ⊆ self). -/
def Relation.isSuperset (selfObj : KureRel) (other : PyArg) :
    Except PErr Bool × List EngineCall :=
  match other with
  | .nonRelation => (.error .typeMismatch, [])
  | .rel _ otherObj =>
    match kure_includes otherObj selfObj with
    | some b => (.ok b, [.includesOp])
    | none => (.error .engineError, [.includesOp])

/-- Relation.isSubset (pyrel.py:499-518): type-checks, then calls the
engine inclusion primitive with the receiver first
(includes(self, other), i.e. self ⊆ other). -/
def Relation.isSubset (selfObj : KureRel) (other : PyArg) :
    Except PErr Bool × List EngineCall :=
  match other with
  | .nonRelation => (.error .typeMismatch, [])
  | .rel _ otherObj =>
    match kure_includes selfObj otherObj with
    | some b => (.ok b, [.includesOp])
    | none => (.error .engineError, [.includesOp])

/-- The overloaded equality operator (pyrel.py:177-180): a non-Relation
operand short-circuits to False without touching equals; a Relation
operand is answered by equals (whose exceptions propagate). -/
def Relation.eq_op (selfObj : KureRel) (other : PyArg) : Except PErr Bool :=
  match other with
  | .nonRelation => .ok false
  | .rel _ _ => (Relation.equals selfObj other).1

/-- The overloaded inequality operator (pyrel.py:182-183): the negation
of eq_op, propagating its exceptions. -/
def Relation.ne_op (selfObj : KureRel) (other : PyArg) : Except PErr Bool :=
  (Relation.eq_op selfObj other).map (fun b => !b)

/-- One operation on a PyrelContext, for stating lifetime invariants
over arbitrary operation sequences.  Context id and the engine objects
handed to _add are irrelevant to the counter, so fixed/carried as
data. -/
inductive CtxOp where
  | newRel (rows cols : Int) (bits : List (List Int))
  | addRel (obj : KureRel)
  | del (ref : Nat)
  | clean
deriving DecidableEq

/-- The context state reached by one operation. -/
def ctxStep (ctx : PyrelContext) : CtxOp → PyrelContext
  | .newRel rows cols bits => (PyrelContext.new ctx 0 rows cols bits).1
  | .addRel obj => (PyrelContext.add ctx obj).1
  | .del ref => PyrelContext.delete ctx ref
  | .clean => PyrelContext.clean ctx

/-- The reference numbers an operation assigns: the keys present in the
mapping afterwards that were not keys before. -/
def freshKeys (old new : List (Nat × KureRel)) : List Nat :=
  (new.filter (fun p => old.all (fun q => q.1 != p.1))).map Prod.fst

/-- Reference numbers assigned by one operation from a given state. -/
def ctxAssigned (ctx : PyrelContext) (op : CtxOp) : List Nat :=
  freshKeys ctx.relations (ctxStep ctx op).relations

/-- All reference numbers assigned along a run, in order. -/
def assignedAlong (ctx : PyrelContext) : List CtxOp → List Nat
  | [] => []
  | op :: ops => ctxAssigned ctx op ++ assignedAlong (ctxStep ctx op) ops

/-- The successive values of the reference counter along a run. -/
def refTrace (ctx : PyrelContext) : List CtxOp → List Nat
  | [] => []
  | op :: ops => (ctxStep ctx op).ref :: refTrace (ctxStep ctx op) ops

/-- The engine object after a successful set-bit call with value true:
the coordinate pair is added to the bit set, dimensions unchanged. -/
def setBitTrue (o : KureRel) (p : Int × Int) : KureRel :=
  ⟨o.rows, o.cols, insert p o.bits⟩

/-- The engine object produced by calling complement twice through the
Python layer: the second call's receiver is the wrapper and engine
object returned by the first, exactly as in
relation.complement().complement(). -/
def doubleComplement (ctx : PyrelContext) (selfR : Relation) (selfObj : KureRel) :
    Except PErr KureRel :=
  match Relation.complement ctx selfR selfObj with
  | (ctx1, .ok (r1, obj1), _) =>
    match Relation.complement ctx1 r1 obj1 with
    | (_, .ok (_, obj2), _) => .ok obj2
    | (_, .error e, _) => .error e
  | (_, .error e, _) => .error e

/-- Equality of Except values is decidable when it is for both the
error and the result type (needed so that concrete runs can be checked
by evaluation). -/
instance {ε α : Type} [DecidableEq ε] [DecidableEq α] : DecidableEq (Except ε α) := fun a b =>
  match a, b with
  | .ok x, .ok y =>
    if h : x = y then isTrue (by rw [h]) else isFalse (fun hc => h (Except.ok.inj hc))
  | .ok _, .error _ => isFalse (fun hc => Except.noConfusion hc)
  | .error _, .ok _ => isFalse (fun hc => Except.noConfusion hc)
  | .error x, .error y =>
    if h : x = y then isTrue (by rw [h]) else isFalse (fun hc => h (Except.error.inj hc))

/-- Computation of a successful mint with no initial bits: the counter
advances, the fresh empty handle is registered under the new reference
number, and the wrapper records the requested dimensions. -/
theorem PyrelContext.new_ok (ctx : PyrelContext) (cid : Nat) (rows cols : Int)
    (h : (rows = 0 ∧ cols = 0) ∨ (0 < rows ∧ 0 < cols)) :
    PyrelContext.new ctx cid rows cols [] =
      (⟨ctx.ref + 1, ctx.relations ++ [(ctx.ref + 1, ⟨rows, cols, ∅⟩)]⟩,
        .ok ⟨cid, ctx.ref + 1, rows, cols⟩, [.relNewWithSize rows cols]) := by
  unfold PyrelContext.new
  rw [if_pos h]
  rfl

/-- C4: for integer dimensions that are both zero or both positive,
minting succeeds and the relation's rows/cols attributes are exactly
the requested values; for every other integer combination, minting
fails with the invalid-dimension error before any engine call, leaving
the context untouched. -/
theorem mint_dimension_roundtrip (ctx : PyrelContext) (cid : Nat) (rows cols : Int) :
    (((rows = 0 ∧ cols = 0) ∨ (0 < rows ∧ 0 < cols)) →
      (PyrelContext.new ctx cid rows cols []).2.1.map Relation.rows = .ok rows ∧
      (PyrelContext.new ctx cid rows cols []).2.1.map Relation.cols = .ok cols) ∧
    (¬((rows = 0 ∧ cols = 0) ∨ (0 < rows ∧ 0 < cols)) →
      PyrelContext.new ctx cid rows cols [] = (ctx, .error .invalidDimension, [])) := by
  constructor
  · intro h
    rw [PyrelContext.new_ok ctx cid rows cols h]
    exact ⟨rfl, rfl⟩
  · intro h
    unfold PyrelContext.new
    rw [if_neg h]

/-- Witness for C4 at the valid dimensions (2, 3) and the invalid
dimensions (2, -1). -/
theorem mint_dimension_roundtrip_witness :
    ((((2:Int) = 0 ∧ (3:Int) = 0) ∨ ((0:Int) < 2 ∧ (0:Int) < 3)) ∧
      (PyrelContext.new ⟨0, []⟩ 0 2 3 []).2.1.map Relation.rows = .ok 2 ∧
      (PyrelContext.new ⟨0, []⟩ 0 2 3 []).2.1.map Relation.cols = .ok 3) ∧
    (¬(((2:Int) = 0 ∧ (-1:Int) = 0) ∨ ((0:Int) < 2 ∧ (0:Int) < -1)) ∧
      PyrelContext.new ⟨0, []⟩ 0 2 (-1) [] = (⟨0, []⟩, .error .invalidDimension, [])) :=
  ⟨⟨Or.inr (by decide), (mint_dimension_roundtrip ⟨0, []⟩ 0 2 3).1 (Or.inr (by decide))⟩,
   ⟨by decide, (mint_dimension_roundtrip ⟨0, []⟩ 0 2 (-1)).2 (by decide)⟩⟩

/-- C1 evaluated at a failing input: transposing a 3×5 relation returns
a wrapper whose rows/cols attributes are still (3, 5) — the claimed
(5, 3) does not hold — while the engine handle written by the transpose
does hold the 5×3 transposed relation. -/
theorem transpose_stale_dims :
    Relation.transpose ⟨0, []⟩ ⟨0, 9, 3, 5⟩ ⟨3, 5, {(1, 4)}⟩ =
      (⟨1, [(1, ⟨5, 3, {(4, 1)}⟩)]⟩,
        .ok (⟨0, 1, 3, 5⟩, ⟨5, 3, {(4, 1)}⟩),
        [.relNewWithSize 3 5, .transposeOp]) ∧
    ¬ (Relation.transpose ⟨0, []⟩ ⟨0, 9, 3, 5⟩ ⟨3, 5, {(1, 4)}⟩).2.1.map
        (fun pr => pr.1.rows) = .ok 5 := by
  decide

/-- C2 evaluated at a failing input: composing a 1×2 relation with a
2×3 relation returns a wrapper whose cols attribute is 2 (the
receiver's own column count) instead of the claimed 3, while the engine
handle holds the correct 1×3 product with exactly bit (0, 2) set. -/
theorem composition_stale_dims :
    Relation.composition ⟨0, []⟩ ⟨0, 9, 1, 2⟩ ⟨1, 2, {(0, 1)}⟩
        (.rel ⟨0, 8, 2, 3⟩ ⟨2, 3, {(1, 2)}⟩) =
      (⟨1, [(1, ⟨1, 3, {(0, 2)}⟩)]⟩,
        .ok (⟨0, 1, 1, 2⟩, ⟨1, 3, {(0, 2)}⟩),
        [.relNewWithSize 1 2, .multOp]) ∧
    ¬ (Relation.composition ⟨0, []⟩ ⟨0, 9, 1, 2⟩ ⟨1, 2, {(0, 1)}⟩
        (.rel ⟨0, 8, 2, 3⟩ ⟨2, 3, {(1, 2)}⟩)).2.1.map (fun pr => pr.1.cols) = .ok 3 := by
  decide

/-- C3 counterexample: the operand belongs to context 1 while the
receiver belongs to context 0, yet meet raises nothing before calling
the engine — it mints the result and performs the intersection call,
returning a successful result; no context-mismatch error exists. -/
theorem meet_cross_context_cex :
    Relation.ctxId ⟨1, 7, 2, 2⟩ ≠ Relation.ctxId ⟨0, 1, 2, 2⟩ ∧
    Relation.meet ⟨1, [(1, ⟨2, 2, ∅⟩)]⟩ ⟨0, 1, 2, 2⟩ ⟨2, 2, ∅⟩
        (.rel ⟨1, 7, 2, 2⟩ ⟨2, 2, ∅⟩) =
      (⟨2, [(1, ⟨2, 2, ∅⟩), (2, ⟨2, 2, ∅⟩)]⟩,
        .ok (⟨0, 2, 2, 2⟩, ⟨2, 2, ∅⟩),
        [.relNewWithSize 2 2, .andOp]) := by
  decide

/-- C3 amended: every binary operation (meet, join, composition,
equals, isSubset, isSuperset) validates only that its operand is a
Relation — a non-Relation operand fails with the type-mismatch
exception before any engine call and without touching the context —
and performs no context-membership check: the result does not depend on
the operand's wrapper at all, in particular not on its owning
context. -/
theorem binary_ops_validate_type_only (ctx : PyrelContext) (r : Relation) (obj : KureRel) :
    (Relation.meet ctx r obj .nonRelation = (ctx, .error .typeMismatch, []) ∧
     Relation.join ctx r obj .nonRelation = (ctx, .error .typeMismatch, []) ∧
     Relation.composition ctx r obj .nonRelation = (ctx, .error .typeMismatch, []) ∧
     Relation.equals obj .nonRelation = (.error .typeMismatch, []) ∧
     Relation.isSubset obj .nonRelation = (.error .typeMismatch, []) ∧
     Relation.isSuperset obj .nonRelation = (.error .typeMismatch, [])) ∧
    (∀ (r1 r2 : Relation) (otherObj : KureRel),
      Relation.meet ctx r obj (.rel r1 otherObj) = Relation.meet ctx r obj (.rel r2 otherObj) ∧
      Relation.join ctx r obj (.rel r1 otherObj) = Relation.join ctx r obj (.rel r2 otherObj) ∧
      Relation.composition ctx r obj (.rel r1 otherObj)
          = Relation.composition ctx r obj (.rel r2 otherObj) ∧
      Relation.equals obj (.rel r1 otherObj) = Relation.equals obj (.rel r2 otherObj) ∧
      Relation.isSubset obj (.rel r1 otherObj) = Relation.isSubset obj (.rel r2 otherObj) ∧
      Relation.isSuperset obj (.rel r1 otherObj) = Relation.isSuperset obj (.rel r2 otherObj)) :=
  ⟨⟨rfl, rfl, rfl, rfl, rfl, rfl⟩, fun _ _ _ => ⟨rfl, rfl, rfl, rfl, rfl, rfl⟩⟩

/-- C10: a non-Relation operand makes the overloaded equality operator
return False and the inequality operator return True, neither raising,
while calling equals directly on the same operand raises the
type-mismatch exception without any engine call. -/
theorem eq_op_non_relation (obj : KureRel) :
    Relation.eq_op obj .nonRelation = .ok false ∧
    Relation.ne_op obj .nonRelation = .ok true ∧
    Relation.equals obj .nonRelation = (.error .typeMismatch, []) :=
  ⟨rfl, rfl, rfl⟩

/-- C5 counterexample: probability 2 lies outside (0, 1] yet random
raises nothing — the value is clamped to 1 and the fill call
proceeds. -/
theorem random_accepts_above_one :
    ¬ (2 : ℚ) ≤ 1 ∧
    Relation.random ⟨1, 1, ∅⟩ ∅ true 2 = (⟨1, 1, ∅⟩, none, [.emptyOp, .randomSimple]) := by
  decide

/-- C5 amended: random raises the invalid-argument exception exactly
when the probability is not a float or is not greater than 0; a float
greater than 1 is clamped to 1 and accepted, the fill call being
made. -/
theorem random_invalid_argument_iff (obj : KureRel) (fill : Finset (Int × Int))
    (isFloat : Bool) (p : ℚ) :
    ((Relation.random obj fill isFloat p).2.1 = some PErr.invalidArgument ↔
      ¬(isFloat = true ∧ 0 < p)) ∧
    (isFloat = true → 0 < p →
      Relation.random obj fill isFloat p =
        (kure_random_simple (kure_O obj) (min 1 p) fill, none, [.emptyOp, .randomSimple])) := by
  constructor
  · simp only [Relation.random]
    split
    next h => simp [h.1, h.2]
    next h => simp [h]
  · intro h1 h2
    simp only [Relation.random]
    rw [if_pos ⟨h1, h2⟩]

/-- Witness for the amended C5 at probability 2: the fill call is made
with the probability clamped to 1. -/
theorem random_invalid_argument_iff_witness :
    (true = true) ∧ ((0:ℚ) < 2) ∧
    Relation.random ⟨1, 1, ∅⟩ ∅ true 2 =
      (kure_random_simple (kure_O ⟨1, 1, ∅⟩) (min 1 2) ∅, none, [.emptyOp, .randomSimple]) :=
  ⟨rfl, by decide, (random_invalid_argument_iff ⟨1, 1, ∅⟩ ∅ true 2).2 rfl (by decide)⟩

/-- C6 counterexample: random with probability 0 raises the
locally-detected invalid-argument error, yet the relation's bits have
already been cleared by the preceding engine call — the bit set is
mutated, not left unchanged. -/
theorem random_clears_before_validating :
    Relation.random ⟨1, 1, {(0, 0)}⟩ ∅ true 0 =
      (⟨1, 1, ∅⟩, some PErr.invalidArgument, [.emptyOp]) ∧
    KureRel.bits ⟨1, 1, {(0, 0)}⟩ ≠ KureRel.bits ⟨1, 1, ∅⟩ := by
  decide

/-- C6 amended: the invalid-dimension, type-mismatch and
invalid-bit-pair errors are each raised before any engine call, with
context and engine object untouched; random is the exception — it
empties the relation through an engine call before validating the
probability, so an invalid probability leaves the relation cleared
rather than unchanged. -/
theorem local_errors_precede_engine_calls :
    (∀ (ctx : PyrelContext) (cid : Nat) (rows cols : Int) (bits : List (List Int)),
      ¬((rows = 0 ∧ cols = 0) ∨ (0 < rows ∧ 0 < cols)) →
      PyrelContext.new ctx cid rows cols bits = (ctx, .error .invalidDimension, [])) ∧
    (∀ (ctx : PyrelContext) (r : Relation) (obj : KureRel),
      Relation.meet ctx r obj .nonRelation = (ctx, .error .typeMismatch, [])) ∧
    (∀ (obj : KureRel) (pair : List Int) (rest : List (List Int)) (yesno : Bool),
      pair.length ≠ 2 →
      Relation.set_bits obj (pair :: rest) yesno = (obj, some PErr.invalidBitPair, [])) ∧
    (∀ (obj : KureRel) (fill : Finset (Int × Int)) (p : ℚ), ¬ 0 < p →
      Relation.random obj fill true p = (kure_O obj, some PErr.invalidArgument, [.emptyOp])) := by
  refine ⟨?_, ?_, ?_, ?_⟩
  · intro ctx cid rows cols bits h
    unfold PyrelContext.new
    rw [if_neg h]
  · intro ctx r obj
    rfl
  · intro obj pair rest yesno h
    rcases pair with _ | ⟨a, _ | ⟨b, _ | ⟨c, t⟩⟩⟩
    · rfl
    · rfl
    · exact absurd rfl h
    · rfl
  · intro obj fill p h
    simp only [Relation.random]
    rw [if_neg (fun hc => h hc.2)]

/-- Witness for the amended C6 at concrete inputs for each of the four
error sites. -/
theorem local_errors_precede_engine_calls_witness :
    (¬(((1:Int) = 0 ∧ (-1:Int) = 0) ∨ ((0:Int) < 1 ∧ (0:Int) < -1)) ∧
      PyrelContext.new ⟨0, []⟩ 0 1 (-1) [] = (⟨0, []⟩, .error .invalidDimension, [])) ∧
    (Relation.meet ⟨0, []⟩ ⟨0, 1, 1, 1⟩ ⟨1, 1, ∅⟩ .nonRelation
        = (⟨0, []⟩, .error .typeMismatch, [])) ∧
    (([2] : List Int).length ≠ 2 ∧
      Relation.set_bits ⟨4, 4, ∅⟩ [[2]] true = (⟨4, 4, ∅⟩, some PErr.invalidBitPair, [])) ∧
    (¬ (0:ℚ) < 0 ∧
      Relation.random ⟨1, 1, ∅⟩ ∅ true 0
        = (kure_O ⟨1, 1, ∅⟩, some PErr.invalidArgument, [.emptyOp])) :=
  ⟨⟨by decide, local_errors_precede_engine_calls.1 ⟨0, []⟩ 0 1 (-1) [] (by decide)⟩,
   local_errors_precede_engine_calls.2.1 ⟨0, []⟩ ⟨0, 1, 1, 1⟩ ⟨1, 1, ∅⟩,
   ⟨by decide, local_errors_precede_engine_calls.2.2.1 ⟨4, 4, ∅⟩ [2] [] true (by decide)⟩,
   ⟨by decide, local_errors_precede_engine_calls.2.2.2 ⟨1, 1, ∅⟩ ∅ 0 (by decide)⟩⟩

/-- Membership in the bit set is preserved by further successful
set-bit applications. -/
theorem mem_foldl_setBitTrue (ps : List (Int × Int)) (o : KureRel) (a : Int × Int)
    (h : a ∈ o.bits) : a ∈ (ps.foldl setBitTrue o).bits := by
  induction ps generalizing o with
  | nil => exact h
  | cons q qs ih => exact ih (setBitTrue o q) (Finset.mem_insert_of_mem h)

/-- C7: set_bits applies set_bit to the elements in list order; on
reaching an element that is not a well-formed (row, col) pair it fails
with the invalid-bit-pair error, making no engine call for that element
(the trace holds exactly one set-bit call per preceding pair, in
order), and every pair applied before the malformed element remains set
in the returned object — there is no rollback. -/
theorem set_bits_order_and_partial (obj : KureRel) (good : List (Int × Int))
    (bad : List Int) (rest : List (List Int))
    (hbad : bad.length ≠ 2)
    (hgood : ∀ p ∈ good, 0 ≤ p.1 ∧ p.1 < obj.rows ∧ 0 ≤ p.2 ∧ p.2 < obj.cols) :
    Relation.set_bits obj (good.map (fun p => [p.1, p.2]) ++ bad :: rest) true =
      (good.foldl setBitTrue obj, some PErr.invalidBitPair,
        good.map (fun p => EngineCall.setBit true p.1 p.2)) ∧
    ∀ p ∈ good, p ∈ (good.foldl setBitTrue obj).bits := by
  induction good generalizing obj with
  | nil =>
    refine ⟨?_, by simp⟩
    rcases bad with _ | ⟨a, _ | ⟨b, _ | ⟨c, t⟩⟩⟩
    · rfl
    · rfl
    · exact absurd rfl hbad
    · rfl
  | cons p ps ih =>
    have hp := hgood p (List.mem_cons_self p ps)
    have hset : kure_set_bit_si obj true p.1 p.2 = some (setBitTrue obj p) := by
      unfold kure_set_bit_si
      rw [if_pos hp]
      rfl
    have hsb : Relation.set_bit obj p.1 p.2 true =
        (.ok (setBitTrue obj p), [.setBit true p.1 p.2]) := by
      unfold Relation.set_bit
      rw [hset]
    have ihgood : ∀ q ∈ ps,
        0 ≤ q.1 ∧ q.1 < (setBitTrue obj p).rows ∧ 0 ≤ q.2 ∧ q.2 < (setBitTrue obj p).cols :=
      fun q hq => hgood q (List.mem_cons_of_mem p hq)
    obtain ⟨ih1, ih2⟩ := ih (setBitTrue obj p) ihgood
    constructor
    · have hstep : Relation.set_bits obj
          ([p.1, p.2] :: (ps.map (fun q => [q.1, q.2]) ++ bad :: rest)) true =
          (match Relation.set_bit obj p.1 p.2 true with
            | (.ok obj1, tr1) =>
              match Relation.set_bits obj1 (ps.map (fun q => [q.1, q.2]) ++ bad :: rest) true with
              | (obj2, err, tr2) => (obj2, err, tr1 ++ tr2)
            | (.error e, tr1) => (obj, some e, tr1)) := rfl
      rw [List.map_cons, List.cons_append, hstep, hsb]
      dsimp only
      rw [ih1]
      rfl
    · intro q hq
      rcases List.mem_cons.mp hq with h | h
      · subst h
        exact mem_foldl_setBitTrue ps (setBitTrue obj q) q (Finset.mem_insert_self q obj.bits)
      · exact ih2 q h

/-- Witness for C7: on a 4×4 empty relation, the list [(1,2), (2,)] —
one good pair followed by a malformed singleton — sets (1,2), then
fails with the invalid-bit-pair error and no further engine call. -/
theorem set_bits_order_and_partial_witness :
    (([2] : List Int).length ≠ 2) ∧
    (∀ p ∈ [((1:Int), (2:Int))],
      0 ≤ p.1 ∧ p.1 < KureRel.rows ⟨4, 4, ∅⟩ ∧ 0 ≤ p.2 ∧ p.2 < KureRel.cols ⟨4, 4, ∅⟩) ∧
    (Relation.set_bits ⟨4, 4, ∅⟩
        ([((1:Int), (2:Int))].map (fun p => [p.1, p.2]) ++ [2] :: []) true =
      ([((1:Int), (2:Int))].foldl setBitTrue ⟨4, 4, ∅⟩, some PErr.invalidBitPair,
        [((1:Int), (2:Int))].map (fun p => EngineCall.setBit true p.1 p.2)) ∧
     ∀ p ∈ [((1:Int), (2:Int))], p ∈ ([((1:Int), (2:Int))].foldl setBitTrue ⟨4, 4, ∅⟩).bits) :=
  ⟨by decide, by decide,
    set_bits_order_and_partial ⟨4, 4, ∅⟩ [(1, 2)] [2] [] (by decide) (by decide)⟩

/-- Computation of a successful complement call: the result is minted
from the receiver's dimension attributes, registered under the next
reference number, and then overwritten with the engine's negation of
the receiver's object. -/
theorem Relation.complement_ok (ctx : PyrelContext) (r : Relation) (obj : KureRel)
    (h : (r.rows = 0 ∧ r.cols = 0) ∨ (0 < r.rows ∧ 0 < r.cols)) :
    Relation.complement ctx r obj =
      (PyrelContext.setObj
          ⟨ctx.ref + 1, ctx.relations ++ [(ctx.ref + 1, ⟨r.rows, r.cols, ∅⟩)]⟩
          (ctx.ref + 1) (kure_complement obj),
        .ok (⟨r.ctxId, ctx.ref + 1, r.rows, r.cols⟩, kure_complement obj),
        [.relNewWithSize r.rows r.cols, .complementOp]) := by
  unfold Relation.complement
  rw [PyrelContext.new_ok ctx r.ctxId r.rows r.cols h]
  rfl

/-- C8: complementing twice gives back exactly the original engine
object — so the doubly-complemented relation is structurally equal to
the original, as the equality comparison confirms. -/
theorem complement_complement_eq (ctx : PyrelContext) (r : Relation) (obj : KureRel)
    (hrows : r.rows = obj.rows) (hcols : r.cols = obj.cols)
    (hwf : obj.bits ⊆ allPairs obj.rows obj.cols)
    (hdim : (obj.rows = 0 ∧ obj.cols = 0) ∨ (0 < obj.rows ∧ 0 < obj.cols)) :
    doubleComplement ctx r obj = .ok obj ∧
    (Relation.equals obj (.rel r obj)).1 = .ok true := by
  have hd1 : (r.rows = 0 ∧ r.cols = 0) ∨ (0 < r.rows ∧ 0 < r.cols) := by
    rw [hrows, hcols]; exact hdim
  constructor
  · unfold doubleComplement
    rw [Relation.complement_ok ctx r obj hd1]
    dsimp only
    rw [Relation.complement_ok _ ⟨r.ctxId, ctx.ref + 1, r.rows, r.cols⟩ (kure_complement obj) hd1]
    show Except.ok (kure_complement (kure_complement obj)) = Except.ok obj
    obtain ⟨R, C, B⟩ := obj
    show Except.ok (⟨R, C, allPairs R C \ (allPairs R C \ B)⟩ : KureRel) = Except.ok ⟨R, C, B⟩
    rw [Finset.sdiff_sdiff_self_left, Finset.inter_eq_right.mpr hwf]
  · simp [Relation.equals, kure_equals]

/-- Witness for C8 on a 2×2 relation with the single bit (0, 1). -/
theorem complement_complement_eq_witness :
    (Relation.rows ⟨0, 1, 2, 2⟩ = KureRel.rows ⟨2, 2, {(0, 1)}⟩) ∧
    (Relation.cols ⟨0, 1, 2, 2⟩ = KureRel.cols ⟨2, 2, {(0, 1)}⟩) ∧
    (KureRel.bits ⟨2, 2, {(0, 1)}⟩ ⊆ allPairs 2 2) ∧
    ((KureRel.rows ⟨2, 2, {(0, 1)}⟩ = 0 ∧ KureRel.cols ⟨2, 2, {(0, 1)}⟩ = 0) ∨
      (0 < KureRel.rows ⟨2, 2, {(0, 1)}⟩ ∧ 0 < KureRel.cols ⟨2, 2, {(0, 1)}⟩)) ∧
    (doubleComplement ⟨1, [(1, ⟨2, 2, {(0, 1)}⟩)]⟩ ⟨0, 1, 2, 2⟩ ⟨2, 2, {(0, 1)}⟩
        = .ok ⟨2, 2, {(0, 1)}⟩ ∧
      (Relation.equals ⟨2, 2, {(0, 1)}⟩ (.rel ⟨0, 1, 2, 2⟩ ⟨2, 2, {(0, 1)}⟩)).1 = .ok true) :=
  ⟨rfl, rfl, by decide, by decide,
    complement_complement_eq ⟨1, [(1, ⟨2, 2, {(0, 1)}⟩)]⟩ ⟨0, 1, 2, 2⟩ ⟨2, 2, {(0, 1)}⟩
      rfl rfl (by decide) (by decide)⟩

/-- The context state after a mint: with a valid dimension the counter
advances and the (possibly bit-initialized) object is registered under
the new reference number; with an invalid dimension nothing changes. -/
theorem PyrelContext.new_fst (ctx : PyrelContext) (cid : Nat) (rows cols : Int)
    (bits : List (List Int)) :
    (PyrelContext.new ctx cid rows cols bits).1 =
      if (rows = 0 ∧ cols = 0) ∨ (0 < rows ∧ 0 < cols) then
        ⟨ctx.ref + 1, ctx.relations ++
          [(ctx.ref + 1, (Relation.set_bits (kure_rel_new_with_size_si rows cols) bits true).1)]⟩
      else ctx := by
  unfold PyrelContext.new
  by_cases h : (rows = 0 ∧ cols = 0) ∨ (0 < rows ∧ 0 < cols)
  · rw [if_pos h, if_pos h]
    dsimp only
    by_cases hb : bits.isEmpty = true
    · rw [if_pos hb]
      rw [List.isEmpty_iff.mp hb]
      rfl
    · rw [if_neg hb]
      rcases hsb : Relation.set_bits (kure_rel_new_with_size_si rows cols) bits true
        with ⟨obj1, err, tr⟩
      cases err with
      | none => rfl
      | some e => rfl
  · rw [if_neg h, if_neg h]

/-- Deleting never changes the reference counter. -/
theorem PyrelContext.delete_ref (ctx : PyrelContext) (ref : Nat) :
    (PyrelContext.delete ctx ref).ref = ctx.ref := by
  unfold PyrelContext.delete
  split <;> rfl

/-- Deleting only removes entries: whatever remains was tracked
before. -/
theorem PyrelContext.delete_mem (ctx : PyrelContext) (ref : Nat) :
    ∀ p ∈ (PyrelContext.delete ctx ref).relations, p ∈ ctx.relations := by
  unfold PyrelContext.delete
  split
  · intro p hp
    exact List.mem_of_mem_filter hp
  · intro p hp
    exact hp

/-- The reference counter never decreases across any single context
operation. -/
theorem ctxStep_ref_mono (ctx : PyrelContext) (op : CtxOp) :
    ctx.ref ≤ (ctxStep ctx op).ref := by
  cases op with
  | newRel rows cols bits =>
    show ctx.ref ≤ (PyrelContext.new ctx 0 rows cols bits).1.ref
    rw [PyrelContext.new_fst]
    split
    · exact Nat.le_succ _
    · exact Nat.le_refl _
  | addRel obj => exact Nat.le_succ _
  | del ref =>
    show ctx.ref ≤ (PyrelContext.delete ctx ref).ref
    rw [PyrelContext.delete_ref]
  | clean => exact Nat.le_refl _

/-- Appending one entry whose key differs from every existing key
assigns exactly that key. -/
theorem freshKeys_append_one (old : List (Nat × KureRel)) (k : Nat) (obj : KureRel)
    (h : ∀ q ∈ old, q.1 ≠ k) :
    freshKeys old (old ++ [(k, obj)]) = [k] := by
  unfold freshKeys
  rw [List.filter_append]
  have h1 : old.filter (fun p => old.all (fun q => q.1 != p.1)) = [] := by
    rw [List.filter_eq_nil_iff]
    intro p hp
    simp only [List.all_eq_true, bne_iff_ne, ne_eq, not_forall]
    exact ⟨p, hp, fun hc => hc rfl⟩
  have h2 : [(k, obj)].filter (fun p => old.all (fun q => q.1 != p.1)) = [(k, obj)] := by
    rw [List.filter_cons]
    rw [if_pos (List.all_eq_true.mpr (fun q hq => bne_iff_ne.mpr (h q hq)))]
    rfl
  rw [h1, h2]
  rfl

/-- A state whose entries were all tracked before assigns no key. -/
theorem freshKeys_of_carried (old new : List (Nat × KureRel))
    (h : ∀ p ∈ new, p ∈ old) :
    freshKeys old new = [] := by
  unfold freshKeys
  rw [List.map_eq_nil_iff]
  rw [List.filter_eq_nil_iff]
  intro p hp
  simp only [List.all_eq_true, bne_iff_ne, ne_eq, not_forall]
  exact ⟨p, h p hp, fun hc => hc rfl⟩

/-- Under the tracking invariant (every tracked reference number is at
most the counter), each operation either assigns no reference number or
assigns exactly the incremented counter, the counter moving with it. -/
theorem ctxAssigned_char (ctx : PyrelContext) (op : CtxOp)
    (hI : ∀ p ∈ ctx.relations, p.1 ≤ ctx.ref) :
    ctxAssigned ctx op = [] ∨
      (ctxAssigned ctx op = [ctx.ref + 1] ∧ (ctxStep ctx op).ref = ctx.ref + 1) := by
  have hfresh : ∀ q ∈ ctx.relations, q.1 ≠ ctx.ref + 1 := by
    intro q hq
    have := hI q hq
    omega
  cases op with
  | newRel rows cols bits =>
    have hstep : ctxStep ctx (.newRel rows cols bits) = (PyrelContext.new ctx 0 rows cols bits).1 := rfl
    unfold ctxAssigned
    rw [hstep, PyrelContext.new_fst]
    by_cases h : (rows = 0 ∧ cols = 0) ∨ (0 < rows ∧ 0 < cols)
    · rw [if_pos h]
      refine Or.inr ⟨?_, rfl⟩
      exact freshKeys_append_one ctx.relations (ctx.ref + 1) _ hfresh
    · rw [if_neg h]
      exact Or.inl (freshKeys_of_carried _ _ (fun p hp => hp))
  | addRel obj =>
    refine Or.inr ⟨?_, rfl⟩
    exact freshKeys_append_one ctx.relations (ctx.ref + 1) obj hfresh
  | del ref =>
    exact Or.inl (freshKeys_of_carried _ _ (PyrelContext.delete_mem ctx ref))
  | clean =>
    exact Or.inl (freshKeys_of_carried _ _ (fun p hp => by cases hp))

/-- The tracking invariant is preserved by every operation. -/
theorem ctxStep_inv (ctx : PyrelContext) (op : CtxOp)
    (hI : ∀ p ∈ ctx.relations, p.1 ≤ ctx.ref) :
    ∀ p ∈ (ctxStep ctx op).relations, p.1 ≤ (ctxStep ctx op).ref := by
  cases op with
  | newRel rows cols bits =>
    have hstep : ctxStep ctx (.newRel rows cols bits) = (PyrelContext.new ctx 0 rows cols bits).1 := rfl
    rw [hstep, PyrelContext.new_fst]
    split
    · intro p hp
      rcases List.mem_append.mp hp with h | h
      · exact Nat.le_succ_of_le (hI p h)
      · rw [List.mem_singleton.mp h]
    · exact hI
  | addRel obj =>
    intro p hp
    rcases List.mem_append.mp hp with h | h
    · exact Nat.le_succ_of_le (hI p h)
    · rw [List.mem_singleton.mp h]
      exact Nat.le_refl _
  | del ref =>
    intro p hp
    show p.1 ≤ (PyrelContext.delete ctx ref).ref
    rw [PyrelContext.delete_ref]
    exact hI p (PyrelContext.delete_mem ctx ref p hp)
  | clean =>
    intro p hp
    cases hp

/-- Every reference number assigned anywhere along a run exceeds the
starting counter. -/
theorem assignedAlong_gt (ctx : PyrelContext) (ops : List CtxOp)
    (hI : ∀ p ∈ ctx.relations, p.1 ≤ ctx.ref) :
    ∀ b ∈ assignedAlong ctx ops, ctx.ref < b := by
  induction ops generalizing ctx with
  | nil =>
    intro b hb
    cases hb
  | cons op ops ih =>
    intro b hb
    rw [assignedAlong] at hb
    rcases List.mem_append.mp hb with h | h
    · rcases ctxAssigned_char ctx op hI with hc | ⟨hc, _⟩
      · rw [hc] at h; cases h
      · rw [hc] at h
        rw [List.mem_singleton.mp h]
        exact Nat.lt_succ_self _
    · exact lt_of_le_of_lt (ctxStep_ref_mono ctx op)
        (ih (ctxStep ctx op) (ctxStep_inv ctx op hI) b h)

/-- C9: along every sequence of context operations the reference
counter never decreases from one state to the next, and the reference
numbers assigned to relations are strictly increasing — so no reference
number is ever assigned twice, even after the relation holding it has
been deleted. -/
theorem context_refs_monotone_and_unique (ctx : PyrelContext) (ops : List CtxOp)
    (hI : ∀ p ∈ ctx.relations, p.1 ≤ ctx.ref) :
    List.Chain' (· ≤ ·) (ctx.ref :: refTrace ctx ops) ∧
    List.Pairwise (· < ·) (assignedAlong ctx ops) := by
  induction ops generalizing ctx with
  | nil => exact ⟨List.chain'_singleton _, List.Pairwise.nil⟩
  | cons op ops ih =>
    obtain ⟨ih1, ih2⟩ := ih (ctxStep ctx op) (ctxStep_inv ctx op hI)
    constructor
    · rw [refTrace, List.chain'_cons]
      exact ⟨ctxStep_ref_mono ctx op, ih1⟩
    · rw [assignedAlong, List.pairwise_append]
      refine ⟨?_, ih2, ?_⟩
      · rcases ctxAssigned_char ctx op hI with hc | ⟨hc, _⟩ <;> rw [hc]
        · exact List.Pairwise.nil
        · exact List.pairwise_singleton _ _
      · intro a ha b hb
        rcases ctxAssigned_char ctx op hI with hc | ⟨hc, hr⟩
        · rw [hc] at ha; cases ha
        · rw [hc] at ha
          rw [List.mem_singleton.mp ha]
          have hb1 := assignedAlong_gt (ctxStep ctx op) ops (ctxStep_inv ctx op hI) b hb
          rw [hr] at hb1
          exact hb1

/-- Witness for C9: a run that mints, deletes, mints again and cleans,
starting from a fresh context. -/
theorem context_refs_monotone_and_unique_witness :
    (∀ p ∈ PyrelContext.relations ⟨0, []⟩, p.1 ≤ PyrelContext.ref ⟨0, []⟩) ∧
    (List.Chain' (· ≤ ·) (PyrelContext.ref ⟨0, []⟩ ::
        refTrace ⟨0, []⟩ [.newRel 1 1 [], .del 1, .newRel 2 2 [], .clean]) ∧
      List.Pairwise (· < ·)
        (assignedAlong ⟨0, []⟩ [.newRel 1 1 [], .del 1, .newRel 2 2 [], .clean])) :=
  ⟨by simp, context_refs_monotone_and_unique ⟨0, []⟩
    [.newRel 1 1 [], .del 1, .newRel 2 2 [], .clean] (by simp)⟩
